import Mathlib

/-!
Shallow embedding of `src/oc/hal/midi/LibreMidiTransport.cpp` (hal-midi).

The transport keeps a fixed-capacity list of `ActiveNote` slots, a bounded
vector of pending inbound messages, optional listener callbacks, and an
optional output port.  Machine `uint8_t` values are modelled as `Nat`; the
source masks with `& 0x0F` / `& 0x7F` exactly where the C++ does, so no
implicit wrap-around is added.  Listener callbacks are modelled by a record
of booleans saying which callbacks are set, and the observable effect of a
call is recorded as a `Dispatch` value in an emitted list.
-/

namespace HalMidi

/-- One slot of `active_notes_` (struct `ActiveNote` in the header). -/
structure ActiveNote where
  channel : Nat
  note : Nat
  active : Bool
  deriving Repr, DecidableEq

/-- One element of `pending_messages_` (struct `PendingMessage` in the header). -/
structure PendingMessage where
  bytes : List Nat
  timestampUs : Nat
  deriving Repr, DecidableEq

/-- Which of the eight listener callbacks (`on_cc_`, `on_note_on_`, ...) are set. -/
structure Listeners where
  hasCC : Bool
  hasNoteOn : Bool
  hasNoteOff : Bool
  hasSysEx : Bool
  hasClock : Bool
  hasStart : Bool
  hasStop : Bool
  hasContinue : Bool
  deriving Repr, DecidableEq

/-- A listener invocation performed by `processMessage`, with its arguments. -/
inductive Dispatch where
  | clock (ts : Nat)
  | start
  | cont
  | stop
  | noteOn (channel note velocity : Nat)
  | noteOff (channel note velocity : Nat)
  | cc (channel controller value : Nat)
  | sysex (bytes : List Nat)
  deriving Repr, DecidableEq

/-- The configuration in which every listener callback is set. -/
def fullListeners : Listeners :=
  ⟨true, true, true, true, true, true, true, true⟩

/-- The configuration in which every callback except `on_note_off_` is set. -/
def noNoteOffListeners : Listeners :=
  ⟨true, true, false, true, true, true, true, true⟩

/-- `LibreMidiTransport::processMessage(data, length, timestampUs)`:
classifies the first byte, handles single-byte realtime messages first, then
channel-voice messages (Note Off `0x80`, Note On `0x90` with the velocity-0
branch, Control Change `0xB0`) needing length ≥ 3, then SysEx (`0xF0`
exactly).  A listener is invoked only when it is set; the returned list is
the sequence of listener invocations made (empty = nothing dispatched).
`data[1]`/`data[2]` are read only under the `length >= 3` guard, so `getD`
with default 0 reads the same bytes the C++ reads. -/
def processMessage (ls : Listeners) (bytes : List Nat) (ts : Nat) : List Dispatch :=
  match bytes with
  | [] => []
  | status :: _ =>
    if status = 0xF8 then (if ls.hasClock then [Dispatch.clock ts] else [])
    else if status = 0xFA then (if ls.hasStart then [Dispatch.start] else [])
    else if status = 0xFB then (if ls.hasContinue then [Dispatch.cont] else [])
    else if status = 0xFC then (if ls.hasStop then [Dispatch.stop] else [])
    else
      let type := status &&& 0xF0
      let channel := status &&& 0x0F
      let d1 := bytes.getD 1 0
      let d2 := bytes.getD 2 0
      if type = 0x80 then
        if 3 ≤ bytes.length then
          if ls.hasNoteOff then [Dispatch.noteOff channel d1 d2] else []
        else []
      else if type = 0x90 then
        if 3 ≤ bytes.length then
          if d2 = 0 && ls.hasNoteOff then [Dispatch.noteOff channel d1 0]
          else if ls.hasNoteOn then [Dispatch.noteOn channel d1 d2]
          else []
        else []
      else if type = 0xB0 then
        if 3 ≤ bytes.length then
          if ls.hasCC then [Dispatch.cc channel d1 d2] else []
        else []
      else if type = 0xF0 then
        if status = 0xF0 then
          (if ls.hasSysEx then [Dispatch.sysex bytes] else [])
        else []
      else []

/-- Pure decode: the event dispatched when every listener is set
(`none` plays the role of NotRecognized). -/
def decode (bytes : List Nat) : Option Dispatch :=
  (processMessage fullListeners bytes 0).head?

/-- A status byte recognized by the decoder: one of the four realtime bytes,
a channel-voice status with high nibble `0x80`/`0x90`/`0xB0`, or SysEx `0xF0`. -/
def recognizedStatus (s : Nat) : Bool :=
  s = 0xF8 || s = 0xFA || s = 0xFB || s = 0xFC ||
  (s &&& 0xF0) = 0x80 || (s &&& 0xF0) = 0x90 || (s &&& 0xF0) = 0xB0 || s = 0xF0

/-- Active-note registry: the scan of `markNoteActive`'s first loop.  Returns
the registry with the first inactive slot overwritten by
`{channel, note, true}`, or `none` when every slot is active. -/
def fillFirstInactive (reg : List ActiveNote) (channel note : Nat) :
    Option (List ActiveNote) :=
  match reg with
  | [] => none
  | s :: rest =>
    if s.active then (fillFirstInactive rest channel note).map (s :: ·)
    else some (⟨channel, note, true⟩ :: rest)

/-- `LibreMidiTransport::markNoteActive`: fill the first inactive slot; when
no inactive slot exists, overwrite slot 0 (no-op on an empty registry). -/
def markNoteActive (reg : List ActiveNote) (channel note : Nat) : List ActiveNote :=
  match fillFirstInactive reg channel note with
  | some reg2 => reg2
  | none =>
    match reg with
    | [] => []
    | _ :: rest => ⟨channel, note, true⟩ :: rest

/-- `LibreMidiTransport::markNoteInactive`: deactivate the first active slot
whose channel and note both match; no-op when there is none. -/
def markNoteInactive (reg : List ActiveNote) (channel note : Nat) : List ActiveNote :=
  match reg with
  | [] => []
  | s :: rest =>
    if s.active && s.channel == channel && s.note == note then
      { s with active := false } :: rest
    else s :: markNoteInactive rest channel note

/-- The registry produced by `init()`: `maxActiveNotes` value-initialized
slots, each with `active = false`. -/
def initNotes (maxActiveNotes : Nat) : List ActiveNote :=
  List.replicate maxActiveNotes ⟨0, 0, false⟩

/-- The output binding `midi_out_`, reduced to what the send path reads:
whether `is_port_connected()` holds.  `none` models an absent `midi_out_`. -/
structure OutPort where
  connected : Bool
  deriving Repr, DecidableEq

/-- A bound, connected output. -/
def outConnected : Option OutPort := some ⟨true⟩

/-- No output binding (`midi_out_` null). -/
def outUnbound : Option OutPort := none

/-- Wire bytes built by `sendNoteOn`. -/
def encodeNoteOn (channel note velocity : Nat) : List Nat :=
  [0x90 ||| (channel &&& 0x0F), note &&& 0x7F, velocity &&& 0x7F]

/-- Wire bytes built by `sendNoteOff`. -/
def encodeNoteOff (channel note velocity : Nat) : List Nat :=
  [0x80 ||| (channel &&& 0x0F), note &&& 0x7F, velocity &&& 0x7F]

/-- Wire bytes built by `sendCC`. -/
def encodeCC (channel cc value : Nat) : List Nat :=
  [0xB0 ||| (channel &&& 0x0F), cc &&& 0x7F, value &&& 0x7F]

/-- `LibreMidiTransport::sendNoteOn`: early-return when the output is absent
or disconnected; otherwise mark the note active, then write the encoded
frame.  Returns the new registry and the list of backend writes performed. -/
def sendNoteOnS (out : Option OutPort) (reg : List ActiveNote)
    (channel note velocity : Nat) : List ActiveNote × List (List Nat) :=
  match out with
  | none => (reg, [])
  | some p =>
    if p.connected then
      (markNoteActive reg channel note, [encodeNoteOn channel note velocity])
    else (reg, [])

/-- `LibreMidiTransport::sendNoteOff`: early-return when the output is absent
or disconnected; otherwise mark the note inactive, then write the encoded
frame. -/
def sendNoteOffS (out : Option OutPort) (reg : List ActiveNote)
    (channel note velocity : Nat) : List ActiveNote × List (List Nat) :=
  match out with
  | none => (reg, [])
  | some p =>
    if p.connected then
      (markNoteInactive reg channel note, [encodeNoteOff channel note velocity])
    else (reg, [])

/-- Loop body of `LibreMidiTransport::allNotesOff`, iterating slot index `i`
over the evolving registry (`fuel` bounds the iteration count and is set to
the registry length, which every step preserves).  An active slot triggers
`sendNoteOff(slot.channel, slot.note, 0)` — which itself runs
`markNoteInactive` when the output is connected — followed by
`slot.active = false` through the loop reference, i.e. writing
`{slot.channel, slot.note, false}` at index `i`. -/
def allNotesOffGo (out : Option OutPort) :
    Nat → List ActiveNote → Nat → List ActiveNote × List (List Nat)
  | 0, reg, _ => (reg, [])
  | fuel + 1, reg, i =>
    if h : i < reg.length then
      let slot := reg.get ⟨i, h⟩
      if slot.active then
        let p := sendNoteOffS out reg slot.channel slot.note 0
        let reg2 := p.1.set i { slot with active := false }
        let q := allNotesOffGo out fuel reg2 (i + 1)
        (q.1, p.2 ++ q.2)
      else allNotesOffGo out fuel reg (i + 1)
    else (reg, [])

/-- `LibreMidiTransport::allNotesOff`: for every active slot, send a NoteOff
with velocity 0 and mark the slot inactive, in slot order. -/
def allNotesOffS (out : Option OutPort) (reg : List ActiveNote) :
    List ActiveNote × List (List Nat) :=
  allNotesOffGo out reg.length reg 0

/-- The inbound-queue producer (`in_config.on_message` lambda): ignore empty
messages; under the lock, drop the new message when the queue already holds
`maxPending` messages, else push it at the back. -/
def onMessage (maxPending : Nat) (pending : List PendingMessage)
    (msg : PendingMessage) : List PendingMessage :=
  if msg.bytes = [] then pending
  else if maxPending ≤ pending.length then pending
  else pending ++ [msg]

/-- The transport state read and written by `update()`: the active-note
registry and the pending inbound messages. -/
structure TransportState where
  activeNotes : List ActiveNote
  pending : List PendingMessage
  deriving Repr, DecidableEq

/-- `LibreMidiTransport::update`: swap the pending buffer out under the lock,
then run `processMessage` on each drained message in arrival order.  Returns
the new state and the concatenated listener invocations. -/
def update (ls : Listeners) (st : TransportState) : TransportState × List Dispatch :=
  ({ st with pending := [] },
   st.pending.flatMap fun m => processMessage ls m.bytes m.timestampUs)

/-- Candidate comparison performed by `std::string::find` at one position:
does `pat` occur at the very start of `s`? -/
def prefMatches : List Char → List Char → Bool
  | [], _ => true
  | _ :: _, [] => false
  | a :: as, b :: bs => a == b && prefMatches as bs

/-- `name.find(pattern) != std::string::npos`: does `pat` occur as a
contiguous substring of `s` (scanning start positions left to right)? -/
def containsSub (s pat : List Char) : Bool :=
  if prefMatches pat s then true
  else
    match s with
    | [] => false
    | _ :: rest => containsSub rest pat

/-- The port-matching condition of `init()`:
`config_.inputPortName.empty() || name.find(config_.inputPortName) != npos`. -/
def matchesPattern (pat name : List Char) : Bool :=
  pat.isEmpty || containsSub name pat

/-- The port-scan loop of `init()`: index of the first port whose display
name matches the pattern, `none` when no port matches. -/
def selectPort (pat : List Char) : List (List Char) → Option Nat
  | [] => none
  | name :: rest =>
    if matchesPattern pat name then some 0
    else (selectPort pat rest).map (· + 1)

/-- Result of the synchronous branch of `init()`: which input/output port
index got bound, whether the not-found warning was logged for each
direction, and whether `init` returned ok. -/
structure InitResult where
  inBound : Option Nat
  outBound : Option Nat
  inReported : Bool
  outReported : Bool
  ok : Bool
  deriving Repr, DecidableEq

/-- Synchronous discovery in `init()` (desktop, non-virtual branch): scan the
enumerated input ports and output ports independently, bind the first match
in each direction, warn when a direction stays unbound, and return ok. -/
def initSync (inPat outPat : List Char) (inPorts outPorts : List (List Char)) :
    InitResult :=
  let ib := selectPort inPat inPorts
  let ob := selectPort outPat outPorts
  { inBound := ib, outBound := ob,
    inReported := ib.isNone, outReported := ob.isNone, ok := true }

/-- Is some slot for `(channel, note)` currently active? -/
def pairActive (reg : List ActiveNote) (channel note : Nat) : Bool :=
  reg.any fun s => s.active && s.channel == channel && s.note == note

/-- Number of active slots carrying `(channel, note)`. -/
def countPairActive (reg : List ActiveNote) (channel note : Nat) : Nat :=
  reg.countP fun s => s.active && s.channel == channel && s.note == note

/-- Ranges the spec's data model assigns to decoded events (`Event` in the
spec, section 3): channel 0..15, note/controller/value 0..127, NoteOn
velocity 1..127, NoteOff velocity 0..127; SysEx and realtime unconstrained.
This definition follows the spec's words, to be compared with what
`processMessage` actually produces. -/
def eventWithinSpecRanges : Dispatch → Bool
  | Dispatch.noteOn c n v => decide (c < 16 ∧ n < 128 ∧ 1 ≤ v ∧ v < 128)
  | Dispatch.noteOff c n v => decide (c < 16 ∧ n < 128 ∧ v < 128)
  | Dispatch.cc c d v => decide (c < 16 ∧ d < 128 ∧ v < 128)
  | _ => true

/-- Encoding of a decoded channel-voice event through the matching `send*`
byte construction (`sendNoteOn`/`sendNoteOff`/`sendCC`); other events have
no fixed-length channel-voice encoding here. -/
def encodeEvent : Dispatch → Option (List Nat)
  | Dispatch.noteOn c n v => some (encodeNoteOn c n v)
  | Dispatch.noteOff c n v => some (encodeNoteOff c n v)
  | Dispatch.cc c d v => some (encodeCC c d v)
  | _ => none

/-- Registry state after `init()` followed by a sequence of
`markNoteActive` calls, one per (channel, note) pair. -/
def fillSeq (capN : Nat) (ps : List (Nat × Nat)) : List ActiveNote :=
  List.foldl (fun r p => markNoteActive r p.1 p.2) (initNotes capN) ps

/-- The (channel, note) pairs of the currently active slots, in slot order. -/
def offPairsOf (reg : List ActiveNote) : List (Nat × Nat) :=
  (reg.filter fun s => s.active).map fun s => (s.channel, s.note)

section BitHelpers

set_option maxRecDepth 10000 in
/-- Recombining a status byte from its high nibble and its channel bits. -/
theorem status_recombine : ∀ s : Nat, s < 256 →
    (s &&& 0xF0 = 0x80 → 0x80 ||| (s &&& 0x0F) = s) ∧
    (s &&& 0xF0 = 0x90 → 0x90 ||| (s &&& 0x0F) = s) ∧
    (s &&& 0xF0 = 0xB0 → 0xB0 ||| (s &&& 0x0F) = s) := by decide

set_option maxRecDepth 10000 in
/-- The 7-bit mask is the identity on valid data bytes. -/
theorem data_mask : ∀ d : Nat, d < 128 → d &&& 0x7F = d := by decide

/-- Channel extraction always lands in 0..15. -/
theorem channel_lt (s : Nat) : s &&& 0x0F < 16 :=
  Nat.lt_succ_of_le Nat.and_le_right

/-- Masking a channel twice is the same as masking it once. -/
theorem and_0F_idem (s : Nat) : s &&& 0x0F &&& 0x0F = s &&& 0x0F := by
  rw [Nat.and_assoc]
  norm_num

end BitHelpers

/-- C1: the claim says the pump marks the registry on NoteOn/NoteOff frames.
On the code it does not: pumping the NoteOn frame `{0x90, 60, 100}` from a
fresh one-slot registry dispatches the NoteOn listener yet leaves `(0, 60)`
inactive. -/
theorem pump_registry_counterexample :
    (update fullListeners ⟨initNotes 1, [⟨[0x90, 60, 100], 5⟩]⟩).2 =
      [Dispatch.noteOn 0 60 100] ∧
    pairActive (update fullListeners
      ⟨initNotes 1, [⟨[0x90, 60, 100], 5⟩]⟩).1.activeNotes 0 60 = false := by
  decide

/-- C1 (amended): `update` drains the inbound queue and dispatches each
drained frame through `processMessage` in arrival order, to the listeners
only — the active-note registry is left unchanged by every frame (it is
updated only on the outbound send path). -/
theorem pump_dispatches_listeners_only (ls : Listeners) (st : TransportState) :
    (update ls st).1.activeNotes = st.activeNotes ∧
    (update ls st).1.pending = [] ∧
    (update ls st).2 =
      st.pending.flatMap (fun m => processMessage ls m.bytes m.timestampUs) :=
  ⟨rfl, rfl, rfl⟩

/-- C2: with the NoteOff listener unset and the NoteOn listener set, the
frame `{0x90, 60, 0}` is dispatched as a NoteOn with velocity 0, while
`{0x80, 60, 0}` is dropped — the velocity-0 aliasing is skipped exactly when
`on_note_off_` is null, because the null check sits inside the aliasing
condition.  With every listener set the aliasing does hold. -/
theorem velocity0_aliasing_gap :
    processMessage noNoteOffListeners [0x90, 60, 0] 0 = [Dispatch.noteOn 0 60 0] ∧
    processMessage noNoteOffListeners [0x80, 60, 0] 0 = [] ∧
    decode [0x90, 60, 0] = some (Dispatch.noteOff 0 60 0) ∧
    decode [0x80, 60, 0] = some (Dispatch.noteOff 0 60 0) := by
  decide

/-- C4: the claim says every `sendNoteOn` marks the pair active even when
the write cannot happen.  On the code, a send on an unbound output returns
before touching the registry: `(0, 60)` stays inactive. -/
theorem send_unbound_counterexample :
    sendNoteOnS outUnbound (initNotes 1) 0 60 100 = (initNotes 1, []) ∧
    pairActive (initNotes 1) 0 60 = false := by
  decide

/-- C4 (amended): when the output is bound and connected, `sendNoteOn` marks
the note active and `sendNoteOff` marks it inactive before performing
exactly one backend write whose outcome is ignored; when the output is
unbound or disconnected, the send is a complete no-op (no write and no
registry update). -/
theorem send_updates_registry_when_bound (reg : List ActiveNote)
    (channel note velocity : Nat) :
    sendNoteOnS outConnected reg channel note velocity =
      (markNoteActive reg channel note, [encodeNoteOn channel note velocity]) ∧
    sendNoteOffS outConnected reg channel note velocity =
      (markNoteInactive reg channel note, [encodeNoteOff channel note velocity]) ∧
    sendNoteOnS outUnbound reg channel note velocity = (reg, []) ∧
    sendNoteOffS outUnbound reg channel note velocity = (reg, []) ∧
    sendNoteOnS (some ⟨false⟩) reg channel note velocity = (reg, []) ∧
    sendNoteOffS (some ⟨false⟩) reg channel note velocity = (reg, []) :=
  ⟨rfl, rfl, rfl, rfl, rfl, rfl⟩

/-- A channel-voice frame shorter than 3 bytes is dropped: nothing is
dispatched, whatever listeners are set. -/
theorem voice_short_drop (s : Nat) (rest : List Nat) (ls : Listeners) (ts : Nat)
    (hlen : (s :: rest).length < 3)
    (hnib : s &&& 0xF0 = 0x80 ∨ s &&& 0xF0 = 0x90 ∨ s &&& 0xF0 = 0xB0) :
    processMessage ls (s :: rest) ts = [] := by
  have h8 : s ≠ 0xF8 := by rintro rfl; revert hnib; decide
  have hA : s ≠ 0xFA := by rintro rfl; revert hnib; decide
  have hB : s ≠ 0xFB := by rintro rfl; revert hnib; decide
  have hC : s ≠ 0xFC := by rintro rfl; revert hnib; decide
  have hlen3 : ¬ (2 ≤ rest.length) := by simp at hlen; omega
  rcases hnib with h | h | h <;>
    simp [processMessage, h8, hA, hB, hC, h, hlen3]

/-- A frame whose status byte is not recognized is dropped: nothing is
dispatched, whatever listeners are set. -/
theorem unrecognized_drop (s : Nat) (rest : List Nat) (ls : Listeners) (ts : Nat)
    (h : recognizedStatus s = false) :
    processMessage ls (s :: rest) ts = [] := by
  simp only [recognizedStatus, Bool.or_eq_false_iff, decide_eq_false_iff_not] at h
  obtain ⟨⟨⟨⟨⟨⟨⟨h8, hA⟩, hB⟩, hC⟩, n80⟩, n90⟩, nB0⟩, nF0⟩ := h
  simp [processMessage, h8, hA, hB, hC, n80, n90, nB0, nF0]

/-- C9: decoding an empty frame, a channel-voice frame shorter than 3 bytes,
or a frame whose status byte is not among the recognized ones yields
NotRecognized: no listener is invoked under any listener configuration, and
the pure decode result is `none`. -/
theorem decode_drops_noise (bytes : List Nat) (ls : Listeners) (ts : Nat)
    (h : bytes = [] ∨
      (bytes.length < 3 ∧ (bytes.getD 0 0 &&& 0xF0 = 0x80 ∨
        bytes.getD 0 0 &&& 0xF0 = 0x90 ∨ bytes.getD 0 0 &&& 0xF0 = 0xB0)) ∨
      recognizedStatus (bytes.getD 0 0) = false) :
    processMessage ls bytes ts = [] ∧ decode bytes = none := by
  have main : ∀ (ls2 : Listeners) (ts2 : Nat), processMessage ls2 bytes ts2 = [] := by
    intro ls2 ts2
    match bytes, h with
    | [], _ => rfl
    | s :: rest, h =>
      rcases h with h | ⟨hlen, hnib⟩ | hx
      · exact absurd h (by simp)
      · exact voice_short_drop s rest ls2 ts2 hlen hnib
      · exact unrecognized_drop s rest ls2 ts2 hx
  refine ⟨main ls ts, ?_⟩
  unfold decode
  rw [main fullListeners 0]
  rfl

/-- C9 witness: the Program Change status `0xC0` is not recognized, so the
3-byte frame `{0xC0, 0, 0}` is silently dropped. -/
theorem decode_drops_noise_witness :
    processMessage fullListeners [0xC0, 0, 0] 0 = [] ∧ decode [0xC0, 0, 0] = none :=
  decode_drops_noise [0xC0, 0, 0] fullListeners 0 (Or.inr (Or.inr (by decide)))

/-- A status byte with a channel-voice high nibble is none of the four
realtime bytes. -/
theorem voice_not_realtime (s : Nat)
    (h : s &&& 0xF0 = 0x80 ∨ s &&& 0xF0 = 0x90 ∨ s &&& 0xF0 = 0xB0) :
    s ≠ 0xF8 ∧ s ≠ 0xFA ∧ s ≠ 0xFB ∧ s ≠ 0xFC := by
  refine ⟨?_, ?_, ?_, ?_⟩ <;> (rintro rfl; revert h; decide)

/-- C3: the claim says decoded events satisfy the data-model ranges for
every input byte sequence.  On the code, data bytes are passed through
unmasked: the frame `{0x90, 200, 100}` decodes to a NoteOn whose note 200 is
out of range. -/
theorem decode_range_counterexample :
    decode [0x90, 200, 100] = some (Dispatch.noteOn 0 200 100) ∧
    eventWithinSpecRanges (Dispatch.noteOn 0 200 100) = false := by
  decide

set_option maxHeartbeats 2000000 in
/-- C3 (amended): whenever the two data bytes of the input frame are in
0..127, every event the decoder produces (with all listeners set, so that
the velocity-0 aliasing applies) satisfies the data-model ranges: channel in
0..15, note/controller/value in 0..127, NoteOn velocity in 1..127, NoteOff
velocity in 0..127. -/
theorem decoded_event_ranges (bytes : List Nat) (ts : Nat) (d : Dispatch)
    (h1 : bytes.getD 1 0 < 128) (h2 : bytes.getD 2 0 < 128)
    (hd : d ∈ processMessage fullListeners bytes ts) :
    eventWithinSpecRanges d = true := by
  match bytes with
  | [] => simp [processMessage] at hd
  | s :: rest =>
    have hc := channel_lt s
    simp only [processMessage] at hd
    by_cases hz : (s :: rest).getD 2 0 = 0 <;>
      split_ifs at hd <;>
        first
          | (rw [List.mem_singleton] at hd
             subst hd
             first
               | rfl
               | (simp only [eventWithinSpecRanges, decide_eq_true_eq]; omega)
               | (exfalso; simp_all [fullListeners]))
          | exact absurd hd (List.not_mem_nil _)

/-- C3 witness: the in-range CC frame `{0xB0, 1, 64}` decodes to an event
within the spec ranges. -/
theorem decoded_event_ranges_witness :
    eventWithinSpecRanges (Dispatch.cc 0 1 64) = true :=
  decoded_event_ranges [0xB0, 1, 64] 0 (Dispatch.cc 0 1 64)
    (by decide) (by decide) (by decide)

/-- C8: for every well-formed 3-byte channel-voice frame (Note Off, Note On
with velocity > 0, or Control Change, with both data bytes in 0..127),
encoding the decoded event through the matching `send*` byte construction
returns the frame byte for byte. -/
theorem encode_decode_roundtrip (s d1 d2 : Nat) (hs : s < 256)
    (h1 : d1 < 128) (h2 : d2 < 128)
    (hk : s &&& 0xF0 = 0x80 ∨ (s &&& 0xF0 = 0x90 ∧ d2 ≠ 0) ∨ s &&& 0xF0 = 0xB0) :
    (processMessage fullListeners [s, d1, d2] 0).map encodeEvent = [some [s, d1, d2]] := by
  obtain ⟨h8, hA, hB, hC⟩ := voice_not_realtime s (by tauto)
  have hlen : 3 ≤ [s, d1, d2].length := by simp
  rcases hk with h | ⟨h, hz⟩ | h
  · have hpm : processMessage fullListeners [s, d1, d2] 0 =
        [Dispatch.noteOff (s &&& 0x0F) d1 d2] := by
      simp only [processMessage]
      rw [if_neg h8, if_neg hA, if_neg hB, if_neg hC, if_pos h, if_pos hlen]
      rfl
    rw [hpm]
    simp only [List.map, encodeEvent, encodeNoteOff]
    rw [and_0F_idem, (status_recombine s hs).1 h, data_mask d1 h1, data_mask d2 h2]
  · have n80 : ¬ (s &&& 0xF0 = 0x80) := by rw [h]; decide
    have hpm : processMessage fullListeners [s, d1, d2] 0 =
        [Dispatch.noteOn (s &&& 0x0F) d1 d2] := by
      simp only [processMessage]
      rw [if_neg h8, if_neg hA, if_neg hB, if_neg hC, if_neg n80, if_pos h, if_pos hlen]
      have hz2 : ¬ ((decide ([s, d1, d2].getD 2 0 = 0) && fullListeners.hasNoteOff) = true) := by
        simp [hz]
      rw [if_neg hz2]
      rfl
    rw [hpm]
    simp only [List.map, encodeEvent, encodeNoteOn]
    rw [and_0F_idem, (status_recombine s hs).2.1 h, data_mask d1 h1, data_mask d2 h2]
  · have n80 : ¬ (s &&& 0xF0 = 0x80) := by rw [h]; decide
    have n90 : ¬ (s &&& 0xF0 = 0x90) := by rw [h]; decide
    have hpm : processMessage fullListeners [s, d1, d2] 0 =
        [Dispatch.cc (s &&& 0x0F) d1 d2] := by
      simp only [processMessage]
      rw [if_neg h8, if_neg hA, if_neg hB, if_neg hC, if_neg n80, if_neg n90, if_pos h,
        if_pos hlen]
      rfl
    rw [hpm]
    simp only [List.map, encodeEvent, encodeCC]
    rw [and_0F_idem, (status_recombine s hs).2.2 h, data_mask d1 h1, data_mask d2 h2]

/-- C8 witness: the NoteOn frame `{0x93, 60, 100}` round-trips byte for
byte. -/
theorem encode_decode_roundtrip_witness :
    (processMessage fullListeners [0x93, 60, 100] 0).map encodeEvent =
      [some [0x93, 60, 100]] :=
  encode_decode_roundtrip 0x93 60 100 (by decide) (by decide) (by decide)
    (Or.inr (Or.inl ⟨by decide, by decide⟩))

section RegistryLemmas

/-- When every slot is active, the first scan of `markNoteActive` fails. -/
theorem fillFirstInactive_none (reg : List ActiveNote) (c n : Nat)
    (h : ∀ s ∈ reg, s.active = true) : fillFirstInactive reg c n = none := by
  induction reg with
  | nil => rfl
  | cons a l ih =>
    have ha : a.active = true := h a (by simp)
    simp [fillFirstInactive, ha, ih fun s hs => h s (by simp [hs])]

/-- `markNoteActive` on a fully active, non-empty registry overwrites
slot 0. -/
theorem markNoteActive_all_active (reg : List ActiveNote) (c n : Nat)
    (hne : reg ≠ []) (h : ∀ s ∈ reg, s.active = true) :
    markNoteActive reg c n = ⟨c, n, true⟩ :: reg.tail := by
  match reg with
  | [] => exact absurd rfl hne
  | a :: l =>
    unfold markNoteActive
    rw [fillFirstInactive_none _ _ _ h]
    rfl

/-- The first scan of `markNoteActive` fills the first inactive slot. -/
theorem fillFirstInactive_pre (pre : List ActiveNote) (b : ActiveNote)
    (rest : List ActiveNote) (c n : Nat)
    (hpre : ∀ s ∈ pre, s.active = true) (hb : b.active = false) :
    fillFirstInactive (pre ++ b :: rest) c n = some (pre ++ ⟨c, n, true⟩ :: rest) := by
  induction pre with
  | nil => simp [fillFirstInactive, hb]
  | cons a l ih =>
    have ha : a.active = true := hpre a (by simp)
    simp [fillFirstInactive, ha, ih fun s hs => hpre s (by simp [hs])]

/-- `markNoteActive` fills the first inactive slot when one exists. -/
theorem markNoteActive_pre (pre : List ActiveNote) (b : ActiveNote)
    (rest : List ActiveNote) (c n : Nat)
    (hpre : ∀ s ∈ pre, s.active = true) (hb : b.active = false) :
    markNoteActive (pre ++ b :: rest) c n = pre ++ ⟨c, n, true⟩ :: rest := by
  unfold markNoteActive
  rw [fillFirstInactive_pre pre b rest c n hpre hb]

/-- Filling a successful scan adds exactly one active slot for the filled
pair. -/
theorem fill_countPair (reg : List ActiveNote) (c n : Nat) (r2 : List ActiveNote)
    (h : fillFirstInactive reg c n = some r2) :
    countPairActive r2 c n = countPairActive reg c n + 1 := by
  induction reg generalizing r2 with
  | nil => simp [fillFirstInactive] at h
  | cons a l ih =>
    by_cases ha : a.active
    · simp only [fillFirstInactive, if_pos ha, Option.map_eq_some'] at h
      obtain ⟨r1, hr1, rfl⟩ := h
      have := ih r1 hr1
      simp only [countPairActive, List.countP_cons] at this ⊢
      omega
    · simp only [fillFirstInactive, if_neg ha] at h
      cases h
      have ha2 : a.active = false := by
        revert ha
        cases a.active <;> simp
      simp [countPairActive, List.countP_cons, ha2]

/-- The first scan succeeds whenever some slot is inactive. -/
theorem fill_isSome (reg : List ActiveNote) (c n : Nat)
    (h : ∃ s ∈ reg, s.active = false) : (fillFirstInactive reg c n).isSome = true := by
  induction reg with
  | nil => simp at h
  | cons a l ih =>
    by_cases ha : a.active
    · have hl : ∃ s ∈ l, s.active = false := by
        obtain ⟨s, hs, hsa⟩ := h
        rcases List.mem_cons.mp hs with rfl | hs2
        · rw [ha] at hsa; cases hsa
        · exact ⟨s, hs2, hsa⟩
      simp only [fillFirstInactive, if_pos ha]
      have := ih hl
      cases hfl : fillFirstInactive l c n with
      | none => rw [hfl] at this; cases this
      | some r => rfl
    · simp [fillFirstInactive, ha]

/-- `markNoteActive` does not deduplicate: as long as an inactive slot
exists, it adds one more active slot for the pair, whether or not the pair
is already active. -/
theorem markNoteActive_countPair (reg : List ActiveNote) (c n : Nat)
    (h : ∃ s ∈ reg, s.active = false) :
    countPairActive (markNoteActive reg c n) c n = countPairActive reg c n + 1 := by
  obtain ⟨r2, hr2⟩ := Option.isSome_iff_exists.mp (fill_isSome reg c n h)
  unfold markNoteActive
  rw [hr2]
  exact fill_countPair reg c n r2 hr2

/-- `markNoteInactive` deactivates exactly the first active matching slot. -/
theorem markNoteInactive_pre (pre : List ActiveNote) (b : ActiveNote)
    (rest : List ActiveNote)
    (hpre : ∀ s ∈ pre, s.active = false) (hb : b.active = true) :
    markNoteInactive (pre ++ b :: rest) b.channel b.note =
      pre ++ ⟨b.channel, b.note, false⟩ :: rest := by
  induction pre with
  | nil => simp [markNoteInactive, hb]
  | cons a l ih =>
    have ha : a.active = false := hpre a (by simp)
    simp [markNoteInactive, ha, ih fun s hs => hpre s (by simp [hs])]

/-- Writing at the junction index of an append overwrites the head of the
second part. -/
theorem set_append_len {α : Type} (pre : List α) (x y : α) (rest : List α) :
    (pre ++ x :: rest).set pre.length y = pre ++ y :: rest := by
  induction pre with
  | nil => rfl
  | cons a l ih => simp [List.set, ih]

/-- Reading at the junction index of an append returns the head of the
second part. -/
theorem get_append_len {α : Type} (pre : List α) (x : α) (rest : List α)
    (h : pre.length < (pre ++ x :: rest).length) :
    (pre ++ x :: rest).get ⟨pre.length, h⟩ = x := by
  induction pre with
  | nil => rfl
  | cons a l ih => exact ih (by simp)

end RegistryLemmas

section AllNotesOffLemmas

/-- `sendNoteOff` on a connected output, unfolded. -/
theorem sendNoteOffS_connected (reg : List ActiveNote) (c n v : Nat) :
    sendNoteOffS outConnected reg c n v =
      (markNoteInactive reg c n, [encodeNoteOff c n v]) := rfl

/-- Characterization of the `allNotesOff` loop with a connected output: when
every slot before the cursor is already inactive — which holds throughout
the loop, since processed slots are deactivated — every remaining slot ends
inactive and one NoteOff frame is emitted per remaining active slot, in slot
order.  The inner `markNoteInactive` run by `sendNoteOff` always lands on
the cursor slot itself, because it matches the cursor slot's own channel and
note and every earlier slot is inactive. -/
theorem allNotesOffGo_spec (rest : List ActiveNote) :
    ∀ pre : List ActiveNote, (∀ s ∈ pre, s.active = false) →
    allNotesOffGo outConnected rest.length (pre ++ rest) pre.length =
      (pre ++ rest.map fun s => ⟨s.channel, s.note, false⟩,
       (rest.filter fun s => s.active).map fun s => encodeNoteOff s.channel s.note 0) := by
  induction rest with
  | nil =>
    intro pre hpre
    simp [allNotesOffGo]
  | cons b rest2 ih =>
    intro pre hpre
    have hlt : pre.length < (pre ++ b :: rest2).length := by simp
    rw [List.length_cons]
    simp only [allNotesOffGo]
    rw [dif_pos hlt, get_append_len pre b rest2 hlt]
    by_cases hb : b.active
    · rw [if_pos hb]
      simp only [sendNoteOffS_connected]
      rw [markNoteInactive_pre pre b rest2 hpre hb, set_append_len]
      have hpre2 : ∀ s ∈ pre ++ [(⟨b.channel, b.note, false⟩ : ActiveNote)],
          s.active = false := by
        intro s hs
        rcases List.mem_append.mp hs with hs | hs
        · exact hpre s hs
        · simp at hs; subst hs; rfl
      have hrec := ih (pre ++ [⟨b.channel, b.note, false⟩]) hpre2
      simp only [List.append_assoc, List.singleton_append, List.length_append,
        List.length_singleton] at hrec
      rw [hrec]
      simp [hb]
    · rw [if_neg hb]
      have hb2 : b.active = false := by revert hb; cases b.active <;> simp
      have hpre2 : ∀ s ∈ pre ++ [b], s.active = false := by
        intro s hs
        rcases List.mem_append.mp hs with hs | hs
        · exact hpre s hs
        · simp at hs; subst hs; exact hb2
      have hrec := ih (pre ++ [b]) hpre2
      simp only [List.append_assoc, List.singleton_append, List.length_append,
        List.length_singleton] at hrec
      rw [hrec]
      have hbe : (⟨b.channel, b.note, false⟩ : ActiveNote) = b := by
        cases b
        simp_all
      simp [hb2, hbe]

/-- `allNotesOff` on a connected output deactivates every slot and emits one
velocity-0 NoteOff frame per active slot, in slot order. -/
theorem allNotesOff_spec (reg : List ActiveNote) :
    allNotesOffS outConnected reg =
      (reg.map fun s => ⟨s.channel, s.note, false⟩,
       (reg.filter fun s => s.active).map fun s => encodeNoteOff s.channel s.note 0) := by
  have h := allNotesOffGo_spec reg [] (by simp)
  simpa [allNotesOffS] using h

end AllNotesOffLemmas

section FillLemmas

/-- Folding `markNoteActive` over pairs, starting from a fully active front
followed by enough blank slots, fills the blanks left to right. -/
theorem foldl_markActive_fill (ps : List (Nat × Nat)) :
    ∀ (front : List ActiveNote) (k : Nat),
    (∀ s ∈ front, s.active = true) → ps.length ≤ k →
    List.foldl (fun r p => markNoteActive r p.1 p.2)
        (front ++ List.replicate k ⟨0, 0, false⟩) ps =
      front ++ (ps.map fun p => ⟨p.1, p.2, true⟩) ++
        List.replicate (k - ps.length) ⟨0, 0, false⟩ := by
  induction ps with
  | nil =>
    intro front k hf hk
    simp
  | cons p ps2 ih =>
    intro front k hf hk
    simp only [List.length_cons] at hk
    obtain ⟨k2, rfl⟩ : ∃ k2, k = k2 + 1 := ⟨k - 1, by omega⟩
    rw [List.replicate_succ, List.foldl_cons]
    rw [markNoteActive_pre front ⟨0, 0, false⟩ (List.replicate k2 ⟨0, 0, false⟩)
      p.1 p.2 hf rfl]
    have hsh : front ++ (⟨p.1, p.2, true⟩ : ActiveNote) :: List.replicate k2 ⟨0, 0, false⟩
        = (front ++ [⟨p.1, p.2, true⟩]) ++ List.replicate k2 ⟨0, 0, false⟩ := by simp
    rw [hsh]
    have hf2 : ∀ s ∈ front ++ [(⟨p.1, p.2, true⟩ : ActiveNote)], s.active = true := by
      intro s hs
      rcases List.mem_append.mp hs with hs | hs
      · exact hf s hs
      · simp at hs; subst hs; rfl
    rw [ih (front ++ [(⟨p.1, p.2, true⟩ : ActiveNote)]) k2 hf2 (by omega)]
    simp [Nat.succ_sub_succ]

/-- Slots built from pairs are all active, so the active filter keeps them. -/
theorem filter_active_map_mk (l : List (Nat × Nat)) :
    ((l.map fun p => (⟨p.1, p.2, true⟩ : ActiveNote)).filter fun s => s.active) =
      l.map fun p => ⟨p.1, p.2, true⟩ := by
  induction l <;> simp [*]

/-- The active pairs of a registry built from pairs are those pairs. -/
theorem offPairs_map_mk (l : List (Nat × Nat)) :
    offPairsOf (l.map fun p => (⟨p.1, p.2, true⟩ : ActiveNote)) = l := by
  unfold offPairsOf
  rw [filter_active_map_mk, List.map_map]
  have hcomp : ((fun s : ActiveNote => (s.channel, s.note)) ∘
      fun p : Nat × Nat => (⟨p.1, p.2, true⟩ : ActiveNote)) = id := by
    funext p
    rfl
  rw [hcomp, List.map_id]

end FillLemmas

/-- C5: the claim says at most one slot is active per (channel, note) pair
in every reachable state.  On the code, two `sendNoteOn(0, 60, _)` calls on
a connected output, from a fresh two-slot registry, leave two active slots
for `(0, 60)`, and the following `allNotesOff` emits two NoteOff frames. -/
theorem registry_dup_counterexample :
    countPairActive ((sendNoteOnS outConnected
      ((sendNoteOnS outConnected (initNotes 2) 0 60 100).1) 0 60 100).1) 0 60 = 2 ∧
    (allNotesOffS outConnected ((sendNoteOnS outConnected
      ((sendNoteOnS outConnected (initNotes 2) 0 60 100).1) 0 60 100).1)).2 =
      [[0x80, 60, 0], [0x80, 60, 0]] := by
  decide

/-- C5 (amended): the registry is a slot array, not a set: as long as an
inactive slot exists, `markActive` adds one more active slot for the pair —
whether or not the pair is already active — and `allNotesOff` emits exactly
one NoteOff per active slot, so a duplicated pair receives several
NoteOffs. -/
theorem markActive_no_dedup (reg : List ActiveNote) (c n : Nat)
    (reg2 : List ActiveNote) (h : ∃ s ∈ reg, s.active = false) :
    countPairActive (markNoteActive reg c n) c n = countPairActive reg c n + 1 ∧
    (allNotesOffS outConnected reg2).2 =
      (reg2.filter fun s => s.active).map fun s => encodeNoteOff s.channel s.note 0 :=
  ⟨markNoteActive_countPair reg c n h, congrArg Prod.snd (allNotesOff_spec reg2)⟩

/-- C5 witness: a fresh one-slot registry has an inactive slot, and marking
`(0, 60)` active adds one active slot for it. -/
theorem markActive_no_dedup_witness :
    countPairActive (markNoteActive (initNotes 1) 0 60) 0 60 =
      countPairActive (initNotes 1) 0 60 + 1 ∧
    (allNotesOffS outConnected (initNotes 1)).2 =
      ((initNotes 1).filter fun s => s.active).map
        fun s => encodeNoteOff s.channel s.note 0 :=
  markActive_no_dedup (initNotes 1) 0 60 (initNotes 1) (by decide)

/-- C7: when no inactive slot exists, `markActive` overwrites slot 0 of a
non-empty registry unconditionally; consequently, marking
`maxActiveNotes + 1` distinct pairs active from a fresh registry of capacity
`maxActiveNotes = mid.length + 1` evicts the first pair: the subsequent
`allNotesOff` emits, in slot order, exactly one NoteOff for the last pair
(sitting in slot 0) and one for each middle pair; the first pair is absent
and no pair appears twice. -/
theorem registry_slot0_eviction (reg : List ActiveNote) (c n : Nat)
    (p0 q : Nat × Nat) (mid : List (Nat × Nat))
    (hne : reg ≠ []) (hall : ∀ s ∈ reg, s.active = true)
    (hnd : (p0 :: mid ++ [q]).Nodup) :
    markNoteActive reg c n = ⟨c, n, true⟩ :: reg.tail ∧
    (allNotesOffS outConnected (fillSeq (mid.length + 1) (p0 :: mid ++ [q]))).2 =
      (q :: mid).map (fun p => encodeNoteOff p.1 p.2 0) ∧
    offPairsOf (fillSeq (mid.length + 1) (p0 :: mid ++ [q])) = q :: mid ∧
    p0 ∉ offPairsOf (fillSeq (mid.length + 1) (p0 :: mid ++ [q])) ∧
    (offPairsOf (fillSeq (mid.length + 1) (p0 :: mid ++ [q]))).Nodup := by
  have hfold : List.foldl (fun r p => markNoteActive r p.1 p.2)
      (initNotes (mid.length + 1)) (p0 :: mid) =
      (p0 :: mid).map fun p => ⟨p.1, p.2, true⟩ := by
    have h := foldl_markActive_fill (p0 :: mid) [] (mid.length + 1)
      (by simp) (by simp)
    simpa [initNotes] using h
  have hallmap : ∀ s ∈ (p0 :: mid).map fun p => (⟨p.1, p.2, true⟩ : ActiveNote),
      s.active = true := by
    intro s hs
    obtain ⟨p, _, rfl⟩ := List.mem_map.mp hs
    rfl
  have hfinal : fillSeq (mid.length + 1) (p0 :: mid ++ [q]) =
      (q :: mid).map fun p => ⟨p.1, p.2, true⟩ := by
    unfold fillSeq
    have hsplit : p0 :: mid ++ [q] = (p0 :: mid) ++ [q] := rfl
    rw [hsplit, List.foldl_append, hfold]
    simp only [List.foldl_cons, List.foldl_nil]
    rw [markNoteActive_all_active _ q.1 q.2 (by simp) hallmap]
    simp
  have hoff : offPairsOf (fillSeq (mid.length + 1) (p0 :: mid ++ [q])) = q :: mid := by
    rw [hfinal, offPairs_map_mk]
  refine ⟨markNoteActive_all_active reg c n hne hall, ?_, hoff, ?_, ?_⟩
  · rw [hfinal, allNotesOff_spec]
    simp only [filter_active_map_mk, List.map_map]
    rfl
  · rw [hoff]
    have h1 : p0 ∉ mid ++ [q] := (List.nodup_cons.mp hnd).1
    simp only [List.mem_append, List.mem_cons, List.mem_singleton] at h1 ⊢
    tauto
  · rw [hoff]
    have h2 : (mid ++ [q]).Nodup := (List.nodup_cons.mp hnd).2
    exact (List.perm_append_singleton q mid).nodup h2

/-- C7 witness: capacity 2, three distinct pairs: the first pair `(0, 60)`
is evicted and the NoteOff list holds `(0, 62)` (slot 0) then `(0, 61)`. -/
theorem registry_slot0_eviction_witness :
    markNoteActive [⟨3, 4, true⟩] 1 2 = ⟨1, 2, true⟩ :: [(⟨3, 4, true⟩ : ActiveNote)].tail ∧
    (allNotesOffS outConnected
      (fillSeq ([(0, 61)].length + 1) ((0, 60) :: [(0, 61)] ++ [(0, 62)]))).2 =
      ((0, 62) :: [(0, 61)]).map (fun p => encodeNoteOff p.1 p.2 0) ∧
    offPairsOf (fillSeq ([(0, 61)].length + 1) ((0, 60) :: [(0, 61)] ++ [(0, 62)])) =
      (0, 62) :: [(0, 61)] ∧
    (0, 60) ∉ offPairsOf
      (fillSeq ([(0, 61)].length + 1) ((0, 60) :: [(0, 61)] ++ [(0, 62)])) ∧
    (offPairsOf (fillSeq ([(0, 61)].length + 1)
      ((0, 60) :: [(0, 61)] ++ [(0, 62)]))).Nodup :=
  registry_slot0_eviction [⟨3, 4, true⟩] 1 2 (0, 60) (0, 62) [(0, 61)]
    (by decide) (by decide) (by decide)

section QueueLemmas

/-- An enqueue on a full queue leaves the queue unchanged (and the producer
callback just returns — no error). -/
theorem onMessage_full (cap : Nat) (q : List PendingMessage) (f : PendingMessage)
    (h : cap ≤ q.length) : onMessage cap q f = q := by
  by_cases hb : f.bytes = []
  · unfold onMessage
    rw [if_pos hb]
  · unfold onMessage
    rw [if_neg hb, if_pos h]

/-- Enqueueing non-empty frames fills the queue up to capacity and drops the
rest: the queue ends as the start segment plus as many of the new frames as
fit. -/
theorem foldl_onMessage (cap : Nat) (fs : List PendingMessage) :
    ∀ q : List PendingMessage, (∀ f ∈ fs, f.bytes ≠ []) → q.length ≤ cap →
    List.foldl (onMessage cap) q fs = q ++ fs.take (cap - q.length) := by
  induction fs with
  | nil =>
    intro q _ _
    simp
  | cons f fs2 ih =>
    intro q hfs hq
    rw [List.foldl_cons]
    have hfb : f.bytes ≠ [] := hfs f (by simp)
    by_cases hfull : cap ≤ q.length
    · rw [onMessage_full cap q f hfull]
      rw [ih q (fun g hg => hfs g (by simp [hg])) hq]
      have hz : cap - q.length = 0 := by omega
      rw [hz]
      simp
    · have hstep : onMessage cap q f = q ++ [f] := by
        unfold onMessage
        rw [if_neg hfb, if_neg hfull]
      rw [hstep]
      rw [ih (q ++ [f]) (fun g hg => hfs g (by simp [hg])) (by simp; omega)]
      have harr : cap - q.length = (cap - (q ++ [f]).length) + 1 := by simp; omega
      rw [harr, List.take_succ_cons]
      simp

end QueueLemmas

/-- C6: enqueueing `cap + k` non-empty frames (k > 0) into an empty inbound
queue and then draining yields exactly the first `cap` frames, in enqueue
order (drop-newest); every intermediate queue length stays within `cap`; and
an enqueue that overflows returns with the queue unchanged (no error). -/
theorem queue_drop_newest (cap k i : Nat) (fs : List PendingMessage)
    (q : List PendingMessage) (f : PendingMessage)
    (_hk : 0 < k) (_hlen : fs.length = cap + k) (hne : ∀ g ∈ fs, g.bytes ≠ [])
    (hq : cap ≤ q.length) :
    List.foldl (onMessage cap) [] fs = fs.take cap ∧
    (List.foldl (onMessage cap) [] (fs.take i)).length ≤ cap ∧
    onMessage cap q f = q := by
  refine ⟨?_, ?_, onMessage_full cap q f hq⟩
  · have h := foldl_onMessage cap fs [] hne (by simp)
    simpa using h
  · have hsub : ∀ g ∈ fs.take i, g.bytes ≠ [] :=
      fun g hg => hne g (List.take_subset i fs hg)
    have h := foldl_onMessage cap (fs.take i) [] hsub (by simp)
    rw [h]
    simp [List.length_take]

/-- C6 witness: capacity 2, three non-empty frames: the first two survive,
the intermediate length bound holds, and the overflowing enqueue is a
no-op. -/
theorem queue_drop_newest_witness :
    List.foldl (onMessage 2) [] [⟨[1], 0⟩, ⟨[2], 0⟩, ⟨[3], 0⟩] =
      [(⟨[1], 0⟩ : PendingMessage), ⟨[2], 0⟩, ⟨[3], 0⟩].take 2 ∧
    (List.foldl (onMessage 2) []
      ([(⟨[1], 0⟩ : PendingMessage), ⟨[2], 0⟩, ⟨[3], 0⟩].take 3)).length ≤ 2 ∧
    onMessage 2 [⟨[1], 0⟩, ⟨[2], 0⟩] ⟨[3], 0⟩ = [⟨[1], 0⟩, ⟨[2], 0⟩] :=
  queue_drop_newest 2 1 3 [⟨[1], 0⟩, ⟨[2], 0⟩, ⟨[3], 0⟩] [⟨[1], 0⟩, ⟨[2], 0⟩]
    ⟨[3], 0⟩ (by decide) (by decide) (by decide) (by decide)

section PortLemmas

/-- The position-wise comparison of the substring scan agrees with list
prefixes. -/
theorem prefMatches_iff (pat : List Char) :
    ∀ s : List Char, prefMatches pat s = true ↔ pat <+: s := by
  induction pat with
  | nil =>
    intro s
    simp [prefMatches, List.nil_prefix]
  | cons a as ih =>
    intro s
    cases s with
    | nil => simp [prefMatches]
    | cons b bs => simp [prefMatches, List.cons_prefix_cons, ih bs]

/-- The substring scan (`std::string::find`) agrees with list infixes. -/
theorem containsSub_iff (s pat : List Char) :
    containsSub s pat = true ↔ pat <:+: s := by
  induction s with
  | nil =>
    constructor
    · intro h
      unfold containsSub at h
      split_ifs at h with hp
      · exact ((prefMatches_iff pat []).mp hp).isInfix
    · intro h
      rw [List.infix_nil] at h
      subst h
      rfl
  | cons a s2 ih =>
    constructor
    · intro h
      unfold containsSub at h
      split_ifs at h with hp
      · exact ((prefMatches_iff pat (a :: s2)).mp hp).isInfix
      · exact List.infix_cons_iff.mpr (Or.inr (ih.mp h))
    · intro h
      unfold containsSub
      split_ifs with hp
      · rfl
      · rcases List.infix_cons_iff.mp h with hpre | hinf
        · exact absurd ((prefMatches_iff pat (a :: s2)).mpr hpre) hp
        · exact ih.mpr hinf

/-- The port-matching rule: a pattern matches a display name exactly when it
is empty or occurs in the name as a contiguous substring. -/
theorem matchesPattern_iff (pat name : List Char) :
    matchesPattern pat name = true ↔ pat = [] ∨ pat <:+: name := by
  unfold matchesPattern
  simp [List.isEmpty_iff, containsSub_iff]

/-- A Bool that is not true is false. -/
theorem bool_not_true (b : Bool) (h : ¬ b = true) : b = false := by
  revert h
  cases b <;> simp

/-- The scan loop binds index `i` exactly when port `i` matches and no
earlier port does. -/
theorem selectPort_eq_some_iff (pat : List Char) (ports : List (List Char)) :
    ∀ i : Nat, selectPort pat ports = some i ↔
      i < ports.length ∧ matchesPattern pat (ports.getD i []) = true ∧
        ∀ j < i, matchesPattern pat (ports.getD j []) = false := by
  induction ports with
  | nil => intro i; simp [selectPort]
  | cons name rest ih =>
    intro i
    rw [selectPort]
    by_cases hm : matchesPattern pat name = true
    · rw [if_pos hm]
      constructor
      · intro h
        cases h
        exact ⟨by simp, by simpa using hm, fun j hj => absurd hj (by omega)⟩
      · rintro ⟨hi, hmi, hjs⟩
        rcases Nat.eq_zero_or_pos i with rfl | hpos
        · rfl
        · have h0 := hjs 0 hpos
          simp at h0
          rw [hm] at h0
          cases h0
    · rw [if_neg hm]
      have hmf : matchesPattern pat name = false := bool_not_true _ hm
      constructor
      · intro h
        rw [Option.map_eq_some'] at h
        obtain ⟨i2, hsel, rfl⟩ := h
        obtain ⟨hlen, hmi, hjs⟩ := (ih i2).mp hsel
        refine ⟨by simp; omega, by simpa using hmi, ?_⟩
        intro j hj
        cases j with
        | zero => simpa using hmf
        | succ j2 => simpa using hjs j2 (by omega)
      · rintro ⟨hi, hmi, hjs⟩
        cases i with
        | zero =>
          rw [List.getD_cons_zero] at hmi
          rw [hmi] at hmf
          cases hmf
        | succ i2 =>
          have hsel : selectPort pat rest = some i2 := by
            refine (ih i2).mpr ⟨by simp at hi; omega, by simpa using hmi, ?_⟩
            intro j hj
            have := hjs (j + 1) (by omega)
            simpa using this
          rw [hsel]
          rfl

/-- The scan loop binds nothing exactly when no port matches. -/
theorem selectPort_eq_none_iff (pat : List Char) (ports : List (List Char)) :
    selectPort pat ports = none ↔ ∀ name ∈ ports, matchesPattern pat name = false := by
  induction ports with
  | nil => simp [selectPort]
  | cons name rest ih =>
    rw [selectPort]
    by_cases hm : matchesPattern pat name = true
    · rw [if_pos hm]
      simp [hm]
    · rw [if_neg hm]
      have hmf : matchesPattern pat name = false := bool_not_true _ hm
      simp [Option.map_eq_none', ih, hmf]

end PortLemmas

/-- C10: synchronous discovery binds, for each direction independently, the
first enumerated port whose display name contains the pattern as a
case-sensitive contiguous substring (an empty pattern matches every port);
when no port matches, that direction stays unbound, its not-found warning is
reported, and `init` still returns success. -/
theorem init_sync_port_selection (inPat outPat : List Char)
    (inPorts outPorts : List (List Char)) (i : Nat) (name pat : List Char) :
    (initSync inPat outPat inPorts outPorts).ok = true ∧
    (initSync inPat outPat inPorts outPorts).inBound = selectPort inPat inPorts ∧
    (initSync inPat outPat inPorts outPorts).outBound = selectPort outPat outPorts ∧
    (selectPort inPat inPorts = some i ↔
      i < inPorts.length ∧ matchesPattern inPat (inPorts.getD i []) = true ∧
        ∀ j < i, matchesPattern inPat (inPorts.getD j []) = false) ∧
    ((initSync inPat outPat inPorts outPorts).inBound = none ↔
      ∀ nm ∈ inPorts, matchesPattern inPat nm = false) ∧
    ((initSync inPat outPat inPorts outPorts).inBound = none ↔
      (initSync inPat outPat inPorts outPorts).inReported = true) ∧
    ((initSync inPat outPat inPorts outPorts).outBound = none ↔
      (initSync inPat outPat inPorts outPorts).outReported = true) ∧
    matchesPattern [] name = true ∧
    (matchesPattern pat name = true ↔ pat = [] ∨ pat <:+: name) := by
  refine ⟨rfl, rfl, rfl, selectPort_eq_some_iff inPat inPorts i,
    selectPort_eq_none_iff inPat inPorts, ?_, ?_, rfl, matchesPattern_iff pat name⟩
  · simp [initSync, Option.isNone_iff_eq_none]
  · simp [initSync, Option.isNone_iff_eq_none]

end HalMidi
